import Mathlib

/-!
A shallow embedding of the document highlight-compositing and viewport
rendering pipeline of helix-gpui (src/document.rs, src/utils.rs), together
with proofs about its behaviour.

Conventions of the embedding:
* Rust `usize` is modelled as `Nat`; `usize::MAX` is the explicit constant
  `USIZE_MAX`, and `checked_sub` is modelled explicitly.
* `gpui::Hsla` colour values are represented by distinct `Nat` codes
  (`white() = 1`, `black() = 2`, ..., `rgb(x) = 7 + x`): the pipeline never
  inspects colour components, it only moves them around.
* Lazy Rust iterators are modelled as finite `List`s; the one unbounded
  loop (the run builder of `DocumentElement::highlight`) takes explicit
  fuel and returns `Option`, `none` meaning the fuel ran out.
-/

namespace HelixGpui

/-- `usize::MAX` on a 64-bit platform. -/
def USIZE_MAX : Nat := 2 ^ 64 - 1

/-- Rust `a.checked_sub(b)` on `usize`. -/
def checkedSub (a b : Nat) : Option Nat :=
  if b ≤ a then some (a - b) else none

/-- `helix_view::graphics::Color`, restricted to the variants that
`color_to_hsla` (src/utils.rs) handles; the remaining variants hit a
`todo!()` panic in the source and are not part of the embedding. -/
inductive HColor where
  | white
  | black
  | blue
  | green
  | red
  | yellow
  | rgb (r g b : Nat)
  | reset
deriving Repr, DecidableEq

/-- `color_to_hsla` from src/utils.rs: named colours map to the
corresponding gpui colour, `Rgb(r, g, b)` maps to `rgb(r << 16 | g << 8 | b)`,
and `Reset` maps to `None`.  gpui `Hsla` values are represented by
distinct `Nat` codes. -/
def colorToHsla : HColor → Option Nat
  | .white => some 1
  | .black => some 2
  | .blue => some 3
  | .green => some 4
  | .red => some 5
  | .yellow => some 6
  | .rgb r g b => some (7 + (r % 256) * 2 ^ 16 + (g % 256) * 2 ^ 8 + b % 256)
  | .reset => none

/-- `helix_view::graphics::Style`, restricted to the fields the pipeline
reads (`fg`, `bg`, `underline_color`). -/
structure HStyle where
  fg : Option HColor
  bg : Option HColor
  underline_color : Option HColor
deriving Repr, DecidableEq

/-- `Style::default()`: every field unset. -/
def HStyle.default : HStyle := ⟨none, none, none⟩

/-- `Style::patch`: fields set in `other` overwrite `self`, unset fields
of `other` leave `self` intact. -/
def HStyle.patch (s other : HStyle) : HStyle :=
  ⟨other.fg.elim s.fg some, other.bg.elim s.bg some,
   other.underline_color.elim s.underline_color some⟩

/-- A theme: `highlight` resolves a `Highlight` tag (a `usize` index) to a
style, `get` resolves a scope name to a style. -/
structure HTheme where
  highlight : Nat → HStyle
  get : String → HStyle

/-- `helix_core::syntax::HighlightEvent`.  `Highlight` tags are `Nat`s. -/
inductive HighlightEvent where
  | highlightStart (tag : Nat)
  | highlightEnd
  | source (start stop : Nat)
deriving Repr, DecidableEq

/-- `gpui::TextRun`, restricted to the fields the pipeline sets: `len`,
`font` (an opaque code), `color` (a resolved Hsla code),
`background_color`, and `underline` (the underline colour code; thickness
and waviness are constants in the source). -/
structure GTextRun where
  len : Nat
  font : Nat
  color : Nat
  background_color : Option Nat
  underline : Option Nat
deriving Repr, DecidableEq

/-! ## Style Resolver (`StyleIter`, src/document.rs:923-951)

`StyleIter::next` walks the highlight-event stream keeping a stack of
active highlight tags; `styleSpans` is the whole iterator unrolled into a
list.  `Vec::push` appends at the end, `Vec::pop` removes the last
element (and is a no-op on an empty stack), and the fold over
`active_highlights.iter()` runs bottom-to-top, seeded from `text_style`. -/

/-- The resolved style for a stack of active highlights: fold the theme
lookups bottom-to-top with `patch`, seeded from the base `text_style`. -/
def resolvedStyle (theme : HTheme) (base : HStyle) (stack : List Nat) : HStyle :=
  stack.foldl (fun acc tag => acc.patch (theme.highlight tag)) base

/-- All spans produced by `StyleIter` from the given event stream,
starting from the given active-highlight stack. -/
def styleSpans (theme : HTheme) (base : HStyle) :
    List Nat → List HighlightEvent → List (HStyle × Nat × Nat)
  | _, [] => []
  | stack, .highlightStart tag :: rest => styleSpans theme base (stack ++ [tag]) rest
  | stack, .highlightEnd :: rest => styleSpans theme base stack.dropLast rest
  | stack, .source s e :: rest =>
    if s = e then styleSpans theme base stack rest
    else (resolvedStyle theme base stack, s, e) :: styleSpans theme base stack rest

/-- The active-highlight stack after `StyleIter` has consumed the given
events. -/
def stackAfter : List Nat → List HighlightEvent → List Nat
  | stack, [] => stack
  | stack, .highlightStart tag :: rest => stackAfter (stack ++ [tag]) rest
  | stack, .highlightEnd :: rest => stackAfter stack.dropLast rest
  | stack, .source _ _ :: rest => stackAfter stack rest

/-! ## Run Builder (`DocumentElement::highlight`, src/document.rs:339-451)

The loop of `highlight` walks two resolved style-span streams (syntax and
overlay) in lockstep, emitting one `TextRun` per iteration.  The loop body
is factored into `styleAt` (the style/`is_default` computation at
src/document.rs:394-405), `lenAt` (the length computation at
src/document.rs:412-427, including the final `min(len, end_char)` clamp),
and `runAt` (the emitted run, src/document.rs:407-436); the loop itself is
`buildRunsLoop`, with explicit fuel standing in for the unbounded Rust
`loop`. -/

/-- A resolved style span `(Style, usize, usize)` as yielded by
`StyleIter`. -/
abbrev StyleSpan := HStyle × Nat × Nat

/-- The style applicable at `position` given the current syntax and
overlay spans, and whether the default-gap branch was taken
(src/document.rs:394-405). -/
def styleAt (position : Nat) (synSpan ovlSpan : StyleSpan) : HStyle × Bool :=
  let (synStyle, synStart, synEnd) := synSpan
  let (ovlStyle, ovlStart, ovlEnd) := ovlSpan
  if position < synStart ∧ position < ovlStart then
    (HStyle.default, true)
  else
    let style := HStyle.default
    let style := if synStart ≤ position ∧ position < synEnd then style.patch synStyle else style
    let style := if ovlStart ≤ position ∧ position < ovlEnd then style.patch ovlStyle else style
    (style, false)

/-- The length of the run emitted at `position`
(src/document.rs:412-419 and the clamp at line 427).  Note the clamp is
`min(len, end_char)`, exactly as in the source. -/
def lenAt (position endChar : Nat) (synSpan ovlSpan : StyleSpan) : Nat :=
  let (_, synStart, synEnd) := synSpan
  let (_, ovlStart, ovlEnd) := ovlSpan
  let isDefault := (styleAt position synSpan ovlSpan).2
  let len :=
    if isDefault then
      min synStart ovlStart - position
    else
      min ((checkedSub synEnd position).getD USIZE_MAX)
          ((checkedSub ovlEnd position).getD USIZE_MAX)
  min len endChar

/-- The `TextRun` emitted at `position` (src/document.rs:407-436):
foreground falls back to `fg_color` when unset or unconvertible,
background and underline are optional. -/
def runAt (fgColor font position endChar : Nat) (synSpan ovlSpan : StyleSpan) : GTextRun :=
  let style := (styleAt position synSpan ovlSpan).1
  { len := lenAt position endChar synSpan ovlSpan
    font := font
    color := (style.fg.bind colorToHsla).getD fgColor
    background_color := style.bg.bind colorToHsla
    underline := style.underline_color.bind colorToHsla }

/-- One advance of an exhausted span cursor (src/document.rs:443-448):
take the next span from the stream, or the sentinel
`(style, 0, usize::MAX)` built from the style just emitted. -/
def advanceSpan (style : HStyle) (spans : List StyleSpan) : StyleSpan × List StyleSpan :=
  match spans with
  | [] => ((style, 0, USIZE_MAX), [])
  | sp :: rest => (sp, rest)

/-- The run-builder loop of `DocumentElement::highlight`
(src/document.rs:388-449), with explicit fuel; `none` means the fuel ran
out before the loop terminated. -/
def buildRunsLoop (fgColor font endChar : Nat) :
    Nat → Nat → StyleSpan → List StyleSpan → StyleSpan → List StyleSpan →
    List GTextRun → Option (List GTextRun)
  | 0, _, _, _, _, _, _ => none
  | fuel + 1, position, synSpan, synRest, ovlSpan, ovlRest, runs =>
    let style := (styleAt position synSpan ovlSpan).1
    let run := runAt fgColor font position endChar synSpan ovlSpan
    let runs := runs ++ [run]
    let position := position + run.len
    if position ≥ endChar then
      some runs
    else
      let synSpan' :=
        if position ≥ synSpan.2.2 then (advanceSpan style synRest).1 else synSpan
      let synRest' :=
        if position ≥ synSpan.2.2 then (advanceSpan style synRest).2 else synRest
      let ovlSpan' :=
        if position ≥ ovlSpan.2.2 then (advanceSpan style ovlRest).1 else ovlSpan
      let ovlRest' :=
        if position ≥ ovlSpan.2.2 then (advanceSpan style ovlRest).2 else ovlRest
      buildRunsLoop fgColor font endChar fuel position synSpan' synRest' ovlSpan' ovlRest' runs

/-- `DocumentElement::highlight` from resolved style-span streams: the
initial cursors are the first span of each stream or the default sentinel
`(Style::default(), 0, usize::MAX)` (src/document.rs:378-386), and the
loop starts at `position = anchor`. -/
def buildRuns (fuel : Nat) (synSpans ovlSpans : List StyleSpan)
    (anchor endChar fgColor font : Nat) : Option (List GTextRun) :=
  let (synSpan, synRest) :=
    match synSpans with
    | [] => ((HStyle.default, 0, USIZE_MAX), ([] : List StyleSpan))
    | sp :: rest => (sp, rest)
  let (ovlSpan, ovlRest) :=
    match ovlSpans with
    | [] => ((HStyle.default, 0, USIZE_MAX), ([] : List StyleSpan))
    | sp :: rest => (sp, rest)
  buildRunsLoop fgColor font endChar fuel anchor synSpan synRest ovlSpan ovlRest []

/-- `DocumentElement::highlight` from raw highlight-event streams: both
streams are resolved through `StyleIter` with base style
`Style::default()` (src/document.rs:364-376) and fed to the run-builder
loop. -/
def highlight (theme : HTheme) (fuel : Nat)
    (syntaxEvents overlayEvents : List HighlightEvent)
    (anchor endChar fgColor font : Nat) : Option (List GTextRun) :=
  buildRuns fuel
    (styleSpans theme HStyle.default [] syntaxEvents)
    (styleSpans theme HStyle.default [] overlayEvents)
    anchor endChar fgColor font

/-- The sum of the `len` fields of a run list. -/
def sumLens (runs : List GTextRun) : Nat :=
  (runs.map GTextRun.len).sum

/-! ## Offset translation (ropey semantics and `DocumentElement::paint`,
src/document.rs:610-616)

A text buffer is modelled as a `List Char`.  Following ropey: the number
of lines is the number of `'\n'` characters plus one; `char_to_line c` is
the number of line breaks among the first `c` characters;
`line_to_char i` is the char index of the first character of line `i`,
with `line_to_char len_lines = len_chars`. -/

/-- `Rope::len_chars`. -/
def lenChars (t : List Char) : Nat := t.length

/-- `Rope::len_lines`: line breaks plus one. -/
def lenLines (t : List Char) : Nat := (t.countP (· == '\n')) + 1

/-- `Rope::char_to_line`: the index of the line containing char `c`. -/
def charToLine (t : List Char) (c : Nat) : Nat := (t.take c).countP (· == '\n')

/-- `Rope::line_to_char`: the char index of the start of line `i`
(clamped to `len_chars` past the last line, as for
`line_to_char(len_lines)`). -/
def lineToChar : List Char → Nat → Nat
  | _, 0 => 0
  | [], _ + 1 => 0
  | ch :: rest, i + 1 =>
    if ch = '\n' then 1 + lineToChar rest i else 1 + lineToChar rest (i + 1)

/-- `first_row` in `DocumentElement::paint` (src/document.rs:612):
`text.char_to_line(anchor.min(text.len_chars()))`. -/
def firstRow (t : List Char) (anchor : Nat) : Nat :=
  charToLine t (min anchor (lenChars t))

/-- `last_row` in `DocumentElement::paint` (src/document.rs:614):
`(first_row + rows + 1).min(total_lines)`. -/
def lastRow (t : List Char) (anchor rows : Nat) : Nat :=
  min (firstRow t anchor + rows + 1) (lenLines t)

/-- `end_char` in `DocumentElement::paint` (src/document.rs:616):
`text.line_to_char(min(last_row, total_lines))`. -/
def endCharOf (t : List Char) (anchor rows : Nat) : Nat :=
  lineToChar t (min (lastRow t anchor rows) (lenLines t))

/-- Modelled from the spec (§4.1): the end of the visible range as the
specification words it — the start of line
`min(row + viewport_rows - 1, last_line) + 1`.  Used only to compare the
spec's formula with the one implemented in `DocumentElement::paint`. -/
def specEndChar (t : List Char) (anchor rows : Nat) : Nat :=
  lineToChar t (min (firstRow t anchor + rows - 1) (lenLines t - 1) + 1)

/-- The visible char range as the code computes it: the slice taken in
`DocumentElement::paint` is `text.slice(anchor..end_char)`
(src/document.rs:618), so the range starts at the anchor itself. -/
def visibleRange (t : List Char) (anchor rows : Nat) : Nat × Nat :=
  (anchor, endCharOf t anchor rows)

/-- Modelled from the spec (§4.1 and claim C2): the visible range as the
specification words it — from the first character of the line containing
the anchor to the start of line
`min(row + viewport_rows - 1, last_line) + 1`. -/
def specVisibleRange (t : List Char) (anchor rows : Nat) : Nat × Nat :=
  (lineToChar t (firstRow t anchor), specEndChar t anchor rows)

/-! ## Overlay highlight assembly (`DocumentElement::overlay_highlights`,
src/document.rs:293-337)

The producers (`EditorView::empty_highlight_iter`,
`EditorView::doc_selection_highlights`,
`EditorView::highlight_focused_view_elements`, diagnostic highlight
vectors) and `helix_core::syntax::merge` are external collaborators; they
enter the embedding as opaque parameters.  A selection/diagnostic
highlight vector element `(usize, Range<usize>)` is modelled as
`Nat × Nat × Nat`. -/

/-- An element of a `Vec<(usize, Range<usize>)>` highlight vector:
`(scope index, start, end)`. -/
abbrev SpanVecElem := Nat × Nat × Nat

/-- `DocumentElement::overlay_highlights`: start from the empty base
iterator; if the view is focused, merge in the selection highlights and,
when present, the focused-view elements; then fold every non-empty
diagnostic highlight vector on top with `merge`. -/
def overlayHighlights (merge : List HighlightEvent → List SpanVecElem → List HighlightEvent)
    (emptyBase : List HighlightEvent)
    (selectionHighlights : List SpanVecElem)
    (focusedViewElements : List SpanVecElem)
    (diagnostics : List (List SpanVecElem))
    (isViewFocused : Bool) : List HighlightEvent :=
  let overlay := emptyBase
  let overlay :=
    if isViewFocused then
      let highlights := merge overlay selectionHighlights
      if focusedViewElements.isEmpty then highlights
      else merge highlights focusedViewElements
    else overlay
  diagnostics.foldl (fun acc diagnostic =>
    if diagnostic.isEmpty then acc else merge acc diagnostic) overlay

/-! ## Gutter decoration (`Gutter`, src/document.rs:691-698 and 739-835) -/

/-- `LinePos` (src/document.rs:894-908). -/
structure LinePos where
  first_visual_line : Bool
  doc_line : Nat
  visual_line : Nat
  start_char_idx : Nat
deriving Repr, DecidableEq

/-- The `LinePos` sequence built in `DocumentElement::paint`
(src/document.rs:691-698): one entry per document line of
`first_row..last_row`, always with `first_visual_line: true`,
`visual_line` the 0-based enumeration index, and `start_char_idx: 0`. -/
def linePositions (firstRow lastRow : Nat) : List LinePos :=
  (List.range (lastRow - firstRow)).map fun i =>
    { first_visual_line := true
      doc_line := firstRow + i
      visual_line := i
      start_char_idx := 0 }

/-- One render invocation recorded by a gutter decoration: the arguments
of `GutterRenderer::render` (src/document.rs:797-805). -/
structure RenderCall where
  x : Nat
  y : Nat
  width : Nat
  style : HStyle
  text : Option String
deriving Repr, DecidableEq

/-- The per-line gutter decoration closure built by `Gutter::init_gutter`
(src/document.rs:768-789): `selected` holds when the line's `doc_line`
is among the selection ranges' cursor lines; the base style is one of
four theme styles chosen by `(selected, first_visual_line)`; a
gutter-provided override style (the external per-gutter function,
returning the override and the text it wrote into the scratch buffer) is
patched atop the base before rendering. -/
def gutterDecoration (theme : HTheme) (cursors : List Nat) (offset width : Nat)
    (gutterFn : Nat → Bool → Bool → Option (HStyle × String))
    (pos : LinePos) : RenderCall :=
  let selected := cursors.contains pos.doc_line
  let x := offset
  let y := pos.visual_line
  let gutterStyle :=
    match selected, pos.first_visual_line with
    | false, true => theme.get "ui.gutter"
    | true, true => theme.get "ui.gutter.selected"
    | false, false => theme.get "ui.gutter.virtual"
    | true, false => theme.get "ui.gutter.selected.virtual"
  match gutterFn pos.doc_line selected pos.first_visual_line with
  | some (style, text) => ⟨x, y, width, gutterStyle.patch style, some text⟩
  | none => ⟨x, y, width, gutterStyle, none⟩

/-- The cursor lines of a selection: `Gutter::init_gutter` collects
`range.cursor_line(text)` over the document's selection ranges
(src/document.rs:749-753); ranges and their cursor-line map are external
collaborators. -/
def cursorLines {α : Type} (ranges : List α) (cursorLine : α → Nat) : List Nat :=
  ranges.map cursorLine

/-- A shaped line is modelled by what was shaped: the text and its single
run (`WindowTextSystem::shape_line` is external). -/
abbrev MShapedLine := String × GTextRun

/-- The state of the `Gutter` renderer (src/document.rs:731-737) that
`render` can touch: the accumulated shaped lines plus the constant
layout inputs. -/
structure GutterState where
  lines : List ((Nat × Nat) × MShapedLine)
  originX : Nat
  originY : Nat
  lineHeight : Nat
  cellWidth : Nat
  font : Nat
deriving Repr, DecidableEq

/-- `hsla(0., 0., 1., 1.)`, the fallback gutter foreground
(src/document.rs:812): the same colour code as gpui `white()`. -/
def whiteHsla : Nat := 1

/-- `<Gutter as GutterRenderer>::render` (src/document.rs:797-835): with
`text == None` nothing happens; with `Some(text)` one shaped line is
appended at the computed origin.  `text.len()` counts UTF-8 bytes. -/
def gutterRender (g : GutterState) (x y : Nat) (_width : Nat) (style : HStyle)
    (text : Option String) : GutterState :=
  let originY := g.originY + g.lineHeight * y
  let originX := g.originX + g.cellWidth * x
  let fgColor := (style.fg.bind colorToHsla).getD whiteHsla
  match text with
  | some txt =>
    let run : GTextRun :=
      { len := txt.utf8ByteSize, font := g.font, color := fgColor
        background_color := none, underline := none }
    { g with lines := g.lines ++ [((originX, originY), (txt, run))] }
  | none => g

/-! ## Auxiliary concrete instances used to exercise the definitions -/

/-- A concrete theme used for concrete evaluations: highlight tags map to
distinct rgb foregrounds, scope names to styles distinguished by name
length. -/
def themeW : HTheme :=
  ⟨fun t => ⟨some (.rgb t 0 0), none, some .blue⟩,
   fun s => ⟨some (.rgb s.length 1 1), none, none⟩⟩

/-- Ordered-stream predicate on a resolved style-span list: every span
has `start < stop`, spans are non-overlapping and non-decreasing, and
the first span starts at or after `lo`. -/
def chainFrom (lo : Nat) : List StyleSpan → Bool
  | [] => true
  | (_, s, e) :: rest => decide (lo ≤ s) && decide (s < e) && chainFrom e rest

/-- The `stop` bound of the first span of a stream, `usize::MAX` when the
stream is empty (matching the exhausted-stream sentinel of the run
builder). -/
def headEnd : List StyleSpan → Nat
  | [] => USIZE_MAX
  | sp :: _ => sp.2.2

/-! ## Theorems -/

theorem styleSpans_append (theme : HTheme) (base : HStyle) :
    ∀ (xs ys : List HighlightEvent) (stack : List Nat),
      styleSpans theme base stack (xs ++ ys) =
        styleSpans theme base stack xs ++ styleSpans theme base (stackAfter stack xs) ys := by
  intro xs
  induction xs with
  | nil => intro ys stack; rfl
  | cons ev rest ih =>
    intro ys stack
    cases ev with
    | highlightStart tag => simpa [styleSpans, stackAfter] using ih ys (stack ++ [tag])
    | highlightEnd => simpa [styleSpans, stackAfter] using ih ys stack.dropLast
    | source s e =>
      by_cases h : s = e
      · simp [styleSpans, stackAfter, h, ih ys stack]
      · simp [styleSpans, stackAfter, h, ih ys stack]


/-- C1: the coverage invariant claims that the `len` fields of the runs
returned by `DocumentElement::highlight` sum to `end_char - anchor`.  The
code clamps each run length with `min(len, end_char)` instead of
`min(len, end_char - position)` (src/document.rs:427), so for the
scrolled viewport `anchor = 5`, `end_char = 10` with empty syntax and
overlay streams the single emitted run has length 10 and the sum is
`10 ≠ end_char - anchor = 5`. -/
theorem c1_coverage_invariant_fails :
    (highlight themeW 10 [] [] 5 10 0 99).map sumLens = some 10 ∧
      (10 : Nat) ≠ 10 - 5 := by
  exact ⟨rfl, by decide⟩

/-- C6: with `is_view_focused = false`, `DocumentElement::overlay_highlights`
never consults the selection/cursor highlights or the focused-view
elements — the result is exactly the empty base iterator with every
non-empty diagnostic highlight vector merged on top, and it is unchanged
under arbitrary replacement of the selection and focused-view inputs. -/
theorem c6_unfocused_view_gates_selection_highlights :
    ∀ (merge : List HighlightEvent → List SpanVecElem → List HighlightEvent)
      (emptyBase : List HighlightEvent)
      (sel sel' fve fve' : List SpanVecElem)
      (diags : List (List SpanVecElem)),
      overlayHighlights merge emptyBase sel fve diags false =
        diags.foldl (fun acc d => if d.isEmpty then acc else merge acc d) emptyBase ∧
      overlayHighlights merge emptyBase sel fve diags false =
        overlayHighlights merge emptyBase sel' fve' diags false := by
  intro merge emptyBase sel sel' fve fve' diags
  constructor <;> rfl

/-- C9: the claim requires that a soft-wrapped line occupying N visual
rows yields one `first_visual_line` entry plus N-1 continuation entries
sharing its `doc_line`.  The `LinePos` sequence built in
`DocumentElement::paint` (src/document.rs:691-698) has no soft-wrap
support: for the concrete window `first_row = 3`, `last_row = 6` every
entry has `first_visual_line = true` and all `doc_line`s are distinct, so
no document line ever receives a continuation entry. -/
theorem c9_no_softwrap_continuation_rows :
    (linePositions 3 6).map (fun p => (p.doc_line, p.first_visual_line)) =
        [(3, true), (4, true), (5, true)] ∧
      ((linePositions 3 6).map LinePos.doc_line).Nodup := by
  constructor <;> decide

/-- C10: `Gutter::render` with `text == None` leaves the renderer state
completely unchanged, and with `text == Some` it queues exactly one
shaped line; so a gutter invocation carrying only a style produces no
paint output. -/
theorem c10_gutter_render_none_is_noop :
    ∀ (g : GutterState) (x y width : Nat) (style : HStyle) (txt : String),
      gutterRender g x y width style none = g ∧
      (gutterRender g x y width style (some txt)).lines.length = g.lines.length + 1 ∧
      (gutterRender g x y width style (some txt)).originX = g.originX ∧
      (gutterRender g x y width style (some txt)).originY = g.originY ∧
      (gutterRender g x y width style (some txt)).lineHeight = g.lineHeight ∧
      (gutterRender g x y width style (some txt)).cellWidth = g.cellWidth ∧
      (gutterRender g x y width style (some txt)).font = g.font := by
  intro g x y width style txt
  refine ⟨rfl, ?_, rfl, rfl, rfl, rfl, rfl⟩
  simp [gutterRender]

/-- C4: `StyleIter::next` pushes the tag on `HighlightStart`, pops the
active stack on `HighlightEnd`, skips a `Source` span with
`start == end`, and for `start < end` yields `(resolved, start, end)`
where `resolved` folds the theme lookups of the active stack
bottom-to-top with `patch`, seeded from the caller-supplied base style. -/
theorem c4_style_resolver_semantics :
    ∀ (theme : HTheme) (base : HStyle) (stack : List Nat) (tag s e : Nat)
      (rest : List HighlightEvent),
      styleSpans theme base stack (.highlightStart tag :: rest) =
        styleSpans theme base (stack ++ [tag]) rest ∧
      styleSpans theme base stack (.highlightEnd :: rest) =
        styleSpans theme base stack.dropLast rest ∧
      styleSpans theme base stack (.source s s :: rest) =
        styleSpans theme base stack rest ∧
      (s < e →
        styleSpans theme base stack (.source s e :: rest) =
          (stack.foldl (fun acc tag => acc.patch (theme.highlight tag)) base, s, e) ::
            styleSpans theme base stack rest) := by
  intro theme base stack tag s e rest
  refine ⟨rfl, rfl, by simp [styleSpans], fun h => ?_⟩
  simp [styleSpans, Nat.ne_of_lt h, resolvedStyle]

/-- Witness for C4 at a concrete stream: the span `Source(1, 3)` under
the active stack `[5, 7]` is yielded with the bottom-to-top patch fold. -/
theorem c4_style_resolver_semantics_witness :
    (1 : Nat) < 3 ∧
      styleSpans themeW HStyle.default [5, 7] [.source 1 3] =
        (([5, 7] : List Nat).foldl
            (fun acc tag => acc.patch (themeW.highlight tag)) HStyle.default, 1, 3) ::
          styleSpans themeW HStyle.default [5, 7] [] :=
  ⟨by decide,
   (c4_style_resolver_semantics themeW HStyle.default [5, 7] 0 1 3 []).2.2.2 (by decide)⟩

/-- C5: at a position inside both the current syntax span and the current
overlay span, the run builder resolves the style as the default style
patched with the syntax style and then with the overlay style
(src/document.rs:394-405), and the emitted run carries exactly that
style's foreground (with the default foreground as fallback), background
and underline. -/
theorem c5_overlay_patch_precedence :
    ∀ (fg font position endChar : Nat) (synStyle ovlStyle : HStyle)
      (synStart synEnd ovlStart ovlEnd : Nat),
      synStart ≤ position → position < synEnd →
      ovlStart ≤ position → position < ovlEnd →
      styleAt position (synStyle, synStart, synEnd) (ovlStyle, ovlStart, ovlEnd) =
          ((HStyle.default.patch synStyle).patch ovlStyle, false) ∧
        (runAt fg font position endChar (synStyle, synStart, synEnd)
              (ovlStyle, ovlStart, ovlEnd)).color =
          ((((HStyle.default.patch synStyle).patch ovlStyle).fg.bind colorToHsla).getD fg) ∧
        (runAt fg font position endChar (synStyle, synStart, synEnd)
              (ovlStyle, ovlStart, ovlEnd)).background_color =
          (((HStyle.default.patch synStyle).patch ovlStyle).bg.bind colorToHsla) ∧
        (runAt fg font position endChar (synStyle, synStart, synEnd)
              (ovlStyle, ovlStart, ovlEnd)).underline =
          (((HStyle.default.patch synStyle).patch ovlStyle).underline_color.bind colorToHsla) := by
  intro fg font position endChar synStyle ovlStyle synStart synEnd ovlStart ovlEnd
  intro hss hse hos hoe
  have hstyle :
      styleAt position (synStyle, synStart, synEnd) (ovlStyle, ovlStart, ovlEnd) =
        ((HStyle.default.patch synStyle).patch ovlStyle, false) := by
    simp [styleAt, Nat.not_lt.mpr hss, hss, hse, hos, hoe]
  exact ⟨hstyle, by simp [runAt, hstyle], by simp [runAt, hstyle], by simp [runAt, hstyle]⟩

/-- Witness for C5: position 4 lies inside the syntax span `[2, 6)` and
the overlay span `[4, 9)`; the run emitted there carries the
syntax-then-overlay patched style. -/
theorem c5_overlay_patch_precedence_witness :
    (2 : Nat) ≤ 4 ∧ (4 : Nat) < 6 ∧ (4 : Nat) ≤ 4 ∧ (4 : Nat) < 9 ∧
      styleAt 4 ((⟨some .red, none, none⟩ : HStyle), 2, 6)
          ((⟨none, some .blue, none⟩ : HStyle), 4, 9) =
        ((HStyle.default.patch ⟨some .red, none, none⟩).patch ⟨none, some .blue, none⟩,
          false) :=
  ⟨by decide, by decide, by decide, by decide,
   (c5_overlay_patch_precedence 0 99 4 20 ⟨some .red, none, none⟩
      ⟨none, some .blue, none⟩ 2 6 4 9 (by decide) (by decide) (by decide) (by decide)).1⟩

/-- C7: an `End` event arriving while the active-highlight stack is empty
(`Vec::pop` on an empty vector, src/document.rs:932-934) is silently
discarded: the resolver's output on the stream equals its output on the
same stream with that event removed, and iteration continues. -/
theorem c7_unmatched_end_is_discarded :
    ∀ (theme : HTheme) (base : HStyle) (pre rest : List HighlightEvent),
      stackAfter [] pre = [] →
      styleSpans theme base [] (pre ++ .highlightEnd :: rest) =
        styleSpans theme base [] (pre ++ rest) := by
  intro theme base pre rest h
  rw [styleSpans_append, styleSpans_append, h]
  rfl

/-- Witness for C7: the stream `Source(0,1); End; Source(1,2)` resolves
to the same spans as `Source(0,1); Source(1,2)` although the `End` has no
matching `Start`. -/
theorem c7_unmatched_end_is_discarded_witness :
    stackAfter [] [.source 0 1] = [] ∧
      styleSpans themeW HStyle.default []
          ([.source 0 1] ++ .highlightEnd :: [.source 1 2]) =
        styleSpans themeW HStyle.default [] ([.source 0 1] ++ [.source 1 2]) :=
  ⟨by decide,
   c7_unmatched_end_is_discarded themeW HStyle.default [.source 0 1] [.source 1 2]
     (by decide)⟩

/-- C8: the base gutter style is chosen from exactly four theme styles by
the pair `(selected, first_visual_line)` — `ui.gutter` for
`(false, true)`, `ui.gutter.selected` for `(true, true)`,
`ui.gutter.virtual` for `(false, false)`, `ui.gutter.selected.virtual`
for `(true, false)` — where `selected` holds iff the line's `doc_line` is
the cursor line of some selection range; a per-gutter override style is
patched atop the chosen base before the render callback is invoked
(src/document.rs:755-793). -/
theorem c8_gutter_style_selection :
    ∀ {α : Type} (theme : HTheme) (ranges : List α) (cursorLine : α → Nat)
      (offset width : Nat) (gutterFn : Nat → Bool → Bool → Option (HStyle × String))
      (pos : LinePos),
      let cursors := cursorLines ranges cursorLine
      let selected := cursors.contains pos.doc_line
      let base :=
        match selected, pos.first_visual_line with
        | false, true => theme.get "ui.gutter"
        | true, true => theme.get "ui.gutter.selected"
        | false, false => theme.get "ui.gutter.virtual"
        | true, false => theme.get "ui.gutter.selected.virtual"
      (selected = true ↔ ∃ r ∈ ranges, cursorLine r = pos.doc_line) ∧
        (gutterFn pos.doc_line selected pos.first_visual_line = none →
          gutterDecoration theme cursors offset width gutterFn pos =
            ⟨offset, pos.visual_line, width, base, none⟩) ∧
        (∀ (override : HStyle) (txt : String),
          gutterFn pos.doc_line selected pos.first_visual_line = some (override, txt) →
          gutterDecoration theme cursors offset width gutterFn pos =
            ⟨offset, pos.visual_line, width, base.patch override, some txt⟩) := by
  intro α theme ranges cursorLine offset width gutterFn pos
  refine ⟨?_, ?_, ?_⟩
  · simp [cursorLines, List.contains_iff_exists_mem_beq, List.mem_map, beq_iff_eq]
  · intro h
    simp only [gutterDecoration]
    rw [h]
  · intro override txt h
    simp only [gutterDecoration]
    rw [h]

/-- Witness for C8: ranges `[10, 3]` with the identity cursor-line map,
`doc_line = 3`, `first_visual_line = true`, and a gutter override: the
selected first-visual-line base style `ui.gutter.selected` is patched
with the override. -/
theorem c8_gutter_style_selection_witness :
    ((cursorLines [10, 3] id).contains (3 : Nat) = true ↔
        ∃ r ∈ [10, 3], id r = 3) ∧
      gutterDecoration themeW (cursorLines [10, 3] id) 2 4
          (fun _ _ _ => some (⟨some .red, none, none⟩, "3"))
          ⟨true, 3, 0, 0⟩ =
        ⟨2, 0, 4, (themeW.get "ui.gutter.selected").patch ⟨some .red, none, none⟩,
          some "3"⟩ := by
  have h := c8_gutter_style_selection themeW [10, 3] id 2 4
    (fun _ _ _ => some (⟨some .red, none, none⟩, "3")) ⟨true, 3, 0, 0⟩
  exact ⟨h.1, h.2.2 ⟨some .red, none, none⟩ "3" rfl⟩

theorem lineToChar_le_length : ∀ (t : List Char) (i : Nat), lineToChar t i ≤ t.length := by
  intro t
  induction t with
  | nil => intro i; cases i <;> simp [lineToChar]
  | cons ch rest ih =>
    intro i
    cases i with
    | zero => simp [lineToChar]
    | succ j =>
      by_cases h : ch = '\n'
      · rw [lineToChar, if_pos h]
        have := ih j
        simp only [List.length_cons]
        omega
      · rw [lineToChar, if_neg h]
        have := ih (j + 1)
        simp only [List.length_cons]
        omega

theorem charToLine_mono (t : List Char) {c d : Nat} (h : c ≤ d) :
    charToLine t c ≤ charToLine t d := by
  unfold charToLine
  have h1 : t.take c = (t.take d).take c := by
    rw [List.take_take, Nat.min_eq_left h]
  rw [h1]
  exact List.Sublist.countP_le _ (List.take_sublist _ _)

theorem charToLine_lt_of_lt_lineToChar :
    ∀ (t : List Char) (i c : Nat), c < lineToChar t i → charToLine t c < i := by
  intro t
  induction t with
  | nil =>
    intro i c h
    cases i <;> simp_all [lineToChar]
  | cons ch rest ih =>
    intro i c h
    cases i with
    | zero => simp [lineToChar] at h
    | succ j =>
      cases c with
      | zero => simp [charToLine]
      | succ c' =>
        by_cases hc : ch = '\n'
        · rw [lineToChar, if_pos hc] at h
          have := ih j c' (by omega)
          simp [charToLine, List.countP_cons, hc]
          simp [charToLine] at this
          omega
        · rw [lineToChar, if_neg hc] at h
          have := ih (j + 1) c' (by omega)
          simp [charToLine, List.countP_cons, hc]
          simp [charToLine] at this
          omega

/-- C2: the claim's formula for the visible range — starting at the first
character of the anchor's line and ending at the start of line
`min(row + viewport_rows - 1, last_line) + 1` — disagrees with the code:
for the buffer `"a\nb\nc\nd\ne\n"`, `anchor = 1`, `rows = 2` the code
slices `[1, 6)` (`last_row = min(first_row + rows + 1, total_lines)`,
src/document.rs:614-618) while the claimed formula gives `[0, 4)`. -/
theorem c2_visible_range_counterexample :
    visibleRange "a\nb\nc\nd\ne\n".data 1 2 = (1, 6) ∧
      specVisibleRange "a\nb\nc\nd\ne\n".data 1 2 = (0, 4) ∧
      visibleRange "a\nb\nc\nd\ne\n".data 1 2 ≠
        specVisibleRange "a\nb\nc\nd\ne\n".data 1 2 := by
  refine ⟨by decide, by decide, by decide⟩

/-- C2 (amended): the visible range computed in `DocumentElement::paint`
starts at the anchor char itself and ends at the start of line
`min(first_row + viewport_rows + 1, total_lines)`; its end never exceeds
the buffer's char length, and every visible char lies on a line between
`first_row` and `first_row + viewport_rows`, i.e. the range covers at
most `viewport_rows + 1` document lines. -/
theorem c2_visible_range_amended :
    ∀ (t : List Char) (anchor rows : Nat),
      endCharOf t anchor rows ≤ lenChars t ∧
      ∀ c, anchor ≤ c → c < endCharOf t anchor rows →
        firstRow t anchor ≤ charToLine t c ∧
          charToLine t c ≤ firstRow t anchor + rows := by
  intro t anchor rows
  constructor
  · exact lineToChar_le_length t _
  · intro c hac hce
    constructor
    · exact (charToLine_mono t (by omega : min anchor (lenChars t) ≤ c))
    · have h := charToLine_lt_of_lt_lineToChar t _ c hce
      have h2 : min (lastRow t anchor rows) (lenLines t) ≤ firstRow t anchor + rows + 1 := by
        unfold lastRow
        omega
      omega

/-- Witness for C2 (amended) at the buffer `"a\nb\nc\nd\ne\n"`,
`anchor = 1`, `rows = 2`, visible char `c = 3`. -/
theorem c2_visible_range_amended_witness :
    endCharOf "a\nb\nc\nd\ne\n".data 1 2 ≤ lenChars "a\nb\nc\nd\ne\n".data ∧
      (1 : Nat) ≤ 3 ∧ (3 : Nat) < endCharOf "a\nb\nc\nd\ne\n".data 1 2 ∧
      firstRow "a\nb\nc\nd\ne\n".data 1 ≤ charToLine "a\nb\nc\nd\ne\n".data 3 ∧
      charToLine "a\nb\nc\nd\ne\n".data 3 ≤ firstRow "a\nb\nc\nd\ne\n".data 1 + 2 :=
  ⟨(c2_visible_range_amended "a\nb\nc\nd\ne\n".data 1 2).1, by decide, by decide,
   ((c2_visible_range_amended "a\nb\nc\nd\ne\n".data 1 2).2 3 (by decide) (by decide)).1,
   ((c2_visible_range_amended "a\nb\nc\nd\ne\n".data 1 2).2 3 (by decide) (by decide)).2⟩

theorem lenAt_pos (position endChar : Nat) (synStyle ovlStyle : HStyle)
    (synStart synEnd ovlStart ovlEnd : Nat)
    (hE : 0 < endChar) (hse : position < synEnd) (hoe : position < ovlEnd) :
    0 < lenAt position endChar (synStyle, synStart, synEnd) (ovlStyle, ovlStart, ovlEnd) := by
  by_cases h : position < synStart ∧ position < ovlStart
  · simp [lenAt, styleAt, h]
    omega
  · simp [lenAt, styleAt, h, checkedSub, Nat.le_of_lt hse, Nat.le_of_lt hoe]
    omega

theorem lenAt_le (position endChar : Nat) (synStyle ovlStyle : HStyle)
    (synStart synEnd ovlStart ovlEnd : Nat)
    (hss : synStart < synEnd) (hos : ovlStart < ovlEnd)
    (hse : position < synEnd) (hoe : position < ovlEnd) :
    position + lenAt position endChar (synStyle, synStart, synEnd) (ovlStyle, ovlStart, ovlEnd) ≤
      min synEnd ovlEnd := by
  by_cases h : position < synStart ∧ position < ovlStart
  · simp [lenAt, styleAt, h]
    omega
  · simp [lenAt, styleAt, h, checkedSub, Nat.le_of_lt hse, Nat.le_of_lt hoe]
    omega

theorem advanceSpan_invariant (style : HStyle) (pos : Nat) (bound : Nat)
    (rest : List StyleSpan)
    (hpos : pos = bound) (hchain : chainFrom bound rest = true) (hmax : pos < USIZE_MAX) :
    (advanceSpan style rest).1.2.1 < (advanceSpan style rest).1.2.2 ∧
      pos < (advanceSpan style rest).1.2.2 ∧
      chainFrom (advanceSpan style rest).1.2.2 (advanceSpan style rest).2 = true := by
  cases rest with
  | nil =>
    refine ⟨?_, hmax, rfl⟩
    have : 0 < USIZE_MAX := by norm_num [USIZE_MAX]
    simpa [advanceSpan] using this
  | cons sp rest' =>
    obtain ⟨st, s, e⟩ := sp
    simp only [chainFrom, Bool.and_eq_true, decide_eq_true_eq] at hchain
    obtain ⟨⟨h1, h2⟩, h3⟩ := hchain
    exact ⟨h2, by simp [advanceSpan]; omega, by simpa [advanceSpan] using h3⟩

theorem buildRunsLoop_pos_lens :
    ∀ (fuel fgColor font endChar position : Nat)
      (synSpan ovlSpan : StyleSpan) (synRest ovlRest : List StyleSpan)
      (acc runs : List GTextRun),
      0 < endChar → endChar ≤ USIZE_MAX →
      synSpan.2.1 < synSpan.2.2 → position < synSpan.2.2 →
      chainFrom synSpan.2.2 synRest = true →
      ovlSpan.2.1 < ovlSpan.2.2 → position < ovlSpan.2.2 →
      chainFrom ovlSpan.2.2 ovlRest = true →
      (∀ r ∈ acc, 0 < r.len) →
      buildRunsLoop fgColor font endChar fuel position synSpan synRest ovlSpan ovlRest acc =
        some runs →
      ∀ r ∈ runs, 0 < r.len := by
  intro fuel
  induction fuel with
  | zero =>
    intro fgColor font endChar position synSpan ovlSpan synRest ovlRest acc runs
    intro _ _ _ _ _ _ _ _ _ hloop
    simp [buildRunsLoop] at hloop
  | succ n ih =>
    intro fgColor font endChar position synSpan ovlSpan synRest ovlRest acc runs
    intro hE hEM hs1 hs2 hs3 ho1 ho2 ho3 hacc hloop
    obtain ⟨synStyle, synStart, synEnd⟩ := synSpan
    obtain ⟨ovlStyle, ovlStart, ovlEnd⟩ := ovlSpan
    simp only at hs1 hs2 hs3 ho1 ho2 ho3
    have hLpos : 0 <
        lenAt position endChar (synStyle, synStart, synEnd) (ovlStyle, ovlStart, ovlEnd) :=
      lenAt_pos position endChar synStyle ovlStyle synStart synEnd ovlStart ovlEnd hE hs2 ho2
    have hLle : position +
        lenAt position endChar (synStyle, synStart, synEnd) (ovlStyle, ovlStart, ovlEnd) ≤
          min synEnd ovlEnd :=
      lenAt_le position endChar synStyle ovlStyle synStart synEnd ovlStart ovlEnd
        hs1 ho1 hs2 ho2
    set L :=
      lenAt position endChar (synStyle, synStart, synEnd) (ovlStyle, ovlStart, ovlEnd) with hLdef
    set style :=
      (styleAt position (synStyle, synStart, synEnd) (ovlStyle, ovlStart, ovlEnd)).1 with hSdef
    have hrun : (runAt fgColor font position endChar (synStyle, synStart, synEnd)
        (ovlStyle, ovlStart, ovlEnd)).len = L := rfl
    simp only [buildRunsLoop, hrun, ← hSdef] at hloop
    by_cases hbreak : position + L ≥ endChar
    · rw [if_pos hbreak] at hloop
      obtain rfl : acc ++ [runAt fgColor font position endChar (synStyle, synStart, synEnd)
          (ovlStyle, ovlStart, ovlEnd)] = runs := by
        exact Option.some.inj hloop
      intro r hr
      rcases List.mem_append.mp hr with h | h
      · exact hacc r h
      · simp only [List.mem_singleton] at h
        subst h
        rw [hrun]
        exact hLpos
    · rw [if_neg hbreak] at hloop
      have hcont : position + L < endChar := by omega
      have haccL : ∀ r ∈ acc ++ [runAt fgColor font position endChar
          (synStyle, synStart, synEnd) (ovlStyle, ovlStart, ovlEnd)], 0 < r.len := by
        intro r hr
        rcases List.mem_append.mp hr with h | h
        · exact hacc r h
        · simp only [List.mem_singleton] at h
          subst h
          rw [hrun]
          exact hLpos
      have hmax : position + L < USIZE_MAX := by omega
      by_cases hadvS : position + L ≥ synEnd
      · have heqS : position + L = synEnd := by omega
        have hinvS := advanceSpan_invariant style (position + L) synEnd synRest heqS hs3 hmax
        by_cases hadvO : position + L ≥ ovlEnd
        · have heqO : position + L = ovlEnd := by omega
          have hinvO := advanceSpan_invariant style (position + L) ovlEnd ovlRest heqO ho3 hmax
          rw [if_pos hadvS, if_pos hadvS, if_pos hadvO, if_pos hadvO] at hloop
          exact ih fgColor font endChar (position + L) _ _ _ _ _ runs hE hEM
            hinvS.1 hinvS.2.1 hinvS.2.2 hinvO.1 hinvO.2.1 hinvO.2.2 haccL hloop
        · rw [if_pos hadvS, if_pos hadvS, if_neg hadvO, if_neg hadvO] at hloop
          exact ih fgColor font endChar (position + L) _ _ _ _ _ runs hE hEM
            hinvS.1 hinvS.2.1 hinvS.2.2 ho1 (show position + L < ovlEnd by omega) ho3
            haccL hloop
      · by_cases hadvO : position + L ≥ ovlEnd
        · have heqO : position + L = ovlEnd := by omega
          have hinvO := advanceSpan_invariant style (position + L) ovlEnd ovlRest heqO ho3 hmax
          rw [if_neg hadvS, if_neg hadvS, if_pos hadvO, if_pos hadvO] at hloop
          exact ih fgColor font endChar (position + L) _ _ _ _ _ runs hE hEM
            hs1 (show position + L < synEnd by omega) hs3 hinvO.1 hinvO.2.1 hinvO.2.2
            haccL hloop
        · rw [if_neg hadvS, if_neg hadvS, if_neg hadvO, if_neg hadvO] at hloop
          exact ih fgColor font endChar (position + L) _ _ _ _ _ runs hE hEM
            hs1 (show position + L < synEnd by omega) hs3 ho1
            (show position + L < ovlEnd by omega) ho3 haccL hloop

/-- C3: the claim that no run emitted by `DocumentElement::highlight` has
`len == 0` fails on two concrete inputs: an overlay span `[0, 5)` ending
exactly at the anchor 5 makes the first emitted run have length 0
(`checked_sub` yields `Some(0)` at src/document.rs:417), and an empty
visible range (`end_char = 0`, the empty-buffer case) emits a single run
of length 0 through the `min(len, end_char)` clamp. -/
theorem c3_zero_length_run_emitted :
    (highlight themeW 12 [] [.highlightStart 1, .source 0 5, .highlightEnd] 5 6 0 99).map
        (fun rs => rs.map GTextRun.len) = some [0, 6] ∧
      (highlight themeW 3 [] [] 0 0 0 99).map (fun rs => rs.map GTextRun.len) =
        some [0] := by
  exact ⟨rfl, rfl⟩

/-- C3 (amended): no run emitted by `DocumentElement::highlight` has
`len == 0` provided the visible range is non-empty (`end_char > 0`) and
both resolved style-span streams are ordered — every span has
`start < stop`, consecutive spans do not overlap — with no span ending at
or before the anchor. -/
theorem c3_no_zero_length_runs_amended :
    ∀ (fuel : Nat) (synSpans ovlSpans : List StyleSpan)
      (anchor endChar fgColor font : Nat) (runs : List GTextRun),
      chainFrom 0 synSpans = true → chainFrom 0 ovlSpans = true →
      anchor < headEnd synSpans → anchor < headEnd ovlSpans →
      0 < endChar → endChar ≤ USIZE_MAX →
      buildRuns fuel synSpans ovlSpans anchor endChar fgColor font = some runs →
      ∀ r ∈ runs, 0 < r.len := by
  intro fuel synSpans ovlSpans anchor endChar fgColor font runs
  intro hcs hco hhs hho hE hEM hloop
  have hMAXpos : 0 < USIZE_MAX := by norm_num [USIZE_MAX]
  cases synSpans with
  | nil =>
    simp only [headEnd] at hhs
    cases ovlSpans with
    | nil =>
      simp only [headEnd] at hho
      simp only [buildRuns] at hloop
      exact buildRunsLoop_pos_lens fuel fgColor font endChar anchor
        (HStyle.default, 0, USIZE_MAX) (HStyle.default, 0, USIZE_MAX) [] [] [] runs
        hE hEM hMAXpos hhs rfl hMAXpos hho rfl (by simp) hloop
    | cons osp orest =>
      obtain ⟨ost, os, oe⟩ := osp
      simp only [headEnd] at hho
      simp only [chainFrom, Bool.and_eq_true, decide_eq_true_eq] at hco
      simp only [buildRuns] at hloop
      exact buildRunsLoop_pos_lens fuel fgColor font endChar anchor
        (HStyle.default, 0, USIZE_MAX) (ost, os, oe) [] orest [] runs
        hE hEM hMAXpos hhs rfl hco.1.2 hho hco.2 (by simp) hloop
  | cons ssp srest =>
    obtain ⟨sst, ss, se⟩ := ssp
    simp only [headEnd] at hhs
    simp only [chainFrom, Bool.and_eq_true, decide_eq_true_eq] at hcs
    cases ovlSpans with
    | nil =>
      simp only [headEnd] at hho
      simp only [buildRuns] at hloop
      exact buildRunsLoop_pos_lens fuel fgColor font endChar anchor
        (sst, ss, se) (HStyle.default, 0, USIZE_MAX) srest [] [] runs
        hE hEM hcs.1.2 hhs hcs.2 hMAXpos hho rfl (by simp) hloop
    | cons osp orest =>
      obtain ⟨ost, os, oe⟩ := osp
      simp only [headEnd] at hho
      simp only [chainFrom, Bool.and_eq_true, decide_eq_true_eq] at hco
      simp only [buildRuns] at hloop
      exact buildRunsLoop_pos_lens fuel fgColor font endChar anchor
        (sst, ss, se) (ost, os, oe) srest orest [] runs
        hE hEM hcs.1.2 hhs hcs.2 hco.1.2 hho hco.2 (by simp) hloop

/-- Witness for C3 (amended): an ordered overlay stream whose single span
`[6, 8)` ends after the anchor 5 with `end_char = 10`: the run builder
terminates with runs of lengths 3 and 10, both positive. -/
theorem c3_no_zero_length_runs_amended_witness :
    chainFrom 0 ([] : List StyleSpan) = true ∧
      chainFrom 0 [((⟨some .red, none, none⟩ : HStyle), 6, 8)] = true ∧
      (5 : Nat) < headEnd [] ∧
      (5 : Nat) < headEnd [((⟨some .red, none, none⟩ : HStyle), 6, 8)] ∧
      (0 : Nat) < 10 ∧ (10 : Nat) ≤ USIZE_MAX ∧
      ∀ r ∈ (buildRuns 10 [] [((⟨some .red, none, none⟩ : HStyle), 6, 8)]
          5 10 0 99).getD [], 0 < r.len := by
  refine ⟨by decide, by decide, by decide, by decide, by decide, by decide, ?_⟩
  exact c3_no_zero_length_runs_amended 10 [] [((⟨some .red, none, none⟩ : HStyle), 6, 8)]
    5 10 0 99 _ (by decide) (by decide) (by decide) (by decide) (by decide) (by decide) rfl

end HelixGpui
